import Mathlib

/-!
A verification development for the ingestion pipeline of the Brain repository
(src/ingestion/watcher.js, src/ingestion/emailParser.js, src/ingestion/extractors.js).

The JavaScript code is shallowly embedded: strings are Lean `String`s, the file
system is an explicit structure threaded through the functions, the external
store (src/db/queries.js, not present in the source tree; its interface is
given in the specification) is a list of transcript records, and asynchronous
callbacks (`onNewFile`) are recorded as an event list.  JS `||` defaults and
truthiness on strings are modelled explicitly (`""` is falsy).  Paths are
POSIX-style; the model assumes paths without trailing slashes, as produced by
the watcher and by `path.join`.
-/

namespace Brain

/-- JS whitespace (`\s`, as used by `.trim()` and `/\s+/`): space, tab, LF, CR,
    vertical tab, form feed.  (The exotic Unicode space characters also matched
    by JS are not modelled.) -/
def jsWs (c : Char) : Bool :=
  c = ' ' || c = '\t' || c = '\n' || c = '\r' || c = '\x0b' || c = '\x0c'

/-- Model of JS `String.prototype.trim`. -/
def jsTrim (s : String) : String :=
  ⟨((s.data.dropWhile jsWs).reverse.dropWhile jsWs).reverse⟩

/-- Model of JS `String.prototype.toLowerCase` (ASCII, enough for extensions). -/
def lowerStr (s : String) : String := ⟨s.data.map Char.toLower⟩

/-- Model of JS `a || b` for an optional string `a`: `undefined` and `""` are falsy. -/
def jsOrStr (o : Option String) (d : String) : String :=
  match o with
  | some s => if s = "" then d else s
  | none => d

/-- JS truthiness of an optional string. -/
def jsTruthy (o : Option String) : Bool :=
  match o with
  | some s => s ≠ ""
  | none => false

/-- Index of the last occurrence of `c` in `l`, if any. -/
def lastIndexOf (c : Char) : List Char → Option Nat
  | [] => none
  | d :: t =>
    match lastIndexOf c t with
    | some i => some (i + 1)
    | none => if d = c then some 0 else none

/-- Model of POSIX `path.basename(p)` for paths without trailing slashes. -/
def basename (p : String) : String :=
  match lastIndexOf '/' p.data with
  | none => p
  | some i => ⟨p.data.drop (i + 1)⟩

/-- Model of POSIX `path.dirname(p)` for paths without trailing slashes. -/
def dirname (p : String) : String :=
  match lastIndexOf '/' p.data with
  | none => "."
  | some 0 => "/"
  | some i => ⟨p.data.take i⟩

/-- Node `path.extname` on a path component (no separators): the suffix from the
    last dot, except that a name with its only dot first (dotfile), a name with
    no dot, and the special name `..` have no extension. -/
def extnameOfBase (b : String) : String :=
  if b = ".." then ""
  else
    match lastIndexOf '.' b.data with
    | none => ""
    | some 0 => ""
    | some i => ⟨b.data.drop i⟩

/-- Model of POSIX `path.extname(p)`. -/
def extname (p : String) : String := extnameOfBase (basename p)

/-- Model of `path.join(dir, name)` for a single-segment `name` (no separators),
    including Node's normalization of the `""`, `"."` and `".."` segments. -/
def pathJoin (dir name : String) : String :=
  if name = "" then dir
  else if name = "." then dir
  else if name = ".." then dirname dir
  else dir ++ "/" ++ name

/-- Does `pat` occur as a contiguous substring of `s`?  (Model of a regex test
    for a literal pattern.) -/
def strContainsSub (s pat : String) : Bool :=
  s.data.tails.any (fun t => pat.data.isPrefixOf t)

/-- Does `s` end with `pat`?  (Model of a `...$`-anchored regex test.) -/
def strEndsWith (s pat : String) : Bool :=
  pat.data.isSuffixOf s.data

/-- Does `s` start with `pat`? -/
def strStartsWith (s pat : String) : Bool :=
  pat.data.isPrefixOf s.data

/-! ### Decimal rendering of a counter (JS template literal `${counter}`) -/

/-- The ASCII digit character for `d < 10`. -/
def digitChar (d : Nat) : Char := Char.ofNat (48 + d)

/-- Little-endian decimal digits of `n`, with explicit fuel (`fuel ≥ n` suffices). -/
def natDigitsRev : Nat → Nat → List Char
  | 0, _ => []
  | _ + 1, 0 => []
  | f + 1, n => digitChar (n % 10) :: natDigitsRev f (n / 10)

/-- Decimal rendering of a natural number, as JS string interpolation produces it. -/
def natRepr (n : Nat) : String :=
  if n = 0 then "0" else ⟨(natDigitsRev (n + 1) n).reverse⟩

/-- Recover a number from little-endian digit characters (used to invert `natDigitsRev`). -/
def digitsVal : List Char → Nat
  | [] => 0
  | c :: t => (c.toNat - 48) + 10 * digitsVal t

/-! ### Ignore patterns and extension allow-lists (src/ingestion/watcher.js) -/

/-- `SUPPORTED_EXTENSIONS` from watcher.js. -/
def SUPPORTED_EXTENSIONS : List String :=
  [".txt", ".md", ".json", ".srt", ".pdf", ".docx", ".eml"]

/-- `ATTACHMENT_EXTENSIONS` from watcher.js. -/
def ATTACHMENT_EXTENSIONS : List String :=
  [".pdf", ".docx", ".txt", ".md", ".csv"]

/-- `IGNORED_PATTERNS` from watcher.js, each regex as a decidable string test:
    `/(^|[\/\\])\./` (dotfiles), `/\.tmp$/`, `/\.gsheet$/`, `/\.gdoc$/`,
    `/~\$.*/` (Office lock files; matches iff the string contains `~$`),
    `/\.crdownload$/`, `/\.part$/`. -/
def IGNORED_PATTERNS : List (String → Bool) :=
  [ fun s => strStartsWith s "." || strContainsSub s "/." || strContainsSub s "\\."
  , fun s => strEndsWith s ".tmp"
  , fun s => strEndsWith s ".gsheet"
  , fun s => strEndsWith s ".gdoc"
  , fun s => strContainsSub s "~$"
  , fun s => strEndsWith s ".crdownload"
  , fun s => strEndsWith s ".part" ]

/-- `shouldIgnore` from watcher.js: each pattern is tested against the basename
    and against the full path. -/
def shouldIgnore (filepath : String) : Bool :=
  let filename := basename filepath
  IGNORED_PATTERNS.any (fun pat => pat filename || pat filepath)

/-! ### Attachment filename sanitization (saveAttachments, emailParser.js) -/

/-- The reserved characters replaced by `_` in `saveAttachments`:
    the character class `[/\\:*?"<>|]`. -/
def reservedChars : List Char := ['/', '\\', ':', '*', '?', '"', '<', '>', '|']

/-- `att.filename.replace(/[/\\:*?"<>|]/g, '_').substring(0, 200)`. -/
def sanitizeName (f : String) : String :=
  ⟨(f.data.map (fun c => if reservedChars.contains c then '_' else c)).take 200⟩

/-! ### HTML-to-text stripping (parseEmail, emailParser.js)

The JS code applies, in order: removal of `<style...>...</style>` and
`<script...>...</script>` blocks (case-insensitive, non-greedy), replacement of
every `<[^>]+>` tag by a space, decoding of six literal entities, collapsing of
whitespace runs to a single space, and a final trim.  Each global regex
replacement is embedded as a left-to-right scan; the fuel argument (one unit
per consumed input character, so the input length suffices) only serves
termination. -/

/-- Case-insensitive character comparison (ASCII, as the tags are). -/
def ciEq (c d : Char) : Bool := c.toLower = d.toLower

/-- Is `pat` a case-insensitive prefix of `l`? -/
def ciIsPrefix : List Char → List Char → Bool
  | [], _ => true
  | _ :: _, [] => false
  | p :: ps, c :: cs => ciEq p c && ciIsPrefix ps cs

/-- Drop everything up to and including the first `>`; `none` if there is none. -/
def afterGt : List Char → Option (List Char)
  | [] => none
  | c :: t => if c = '>' then some t else afterGt t

/-- Drop everything up to and including the first case-insensitive occurrence
    of `pat`; `none` if there is none. -/
def dropCiThrough (pat : List Char) : List Char → Option (List Char)
  | [] => none
  | c :: t =>
    if ciIsPrefix pat (c :: t) then some (List.drop pat.length (c :: t))
    else dropCiThrough pat t

/-- One global replacement of `/<TAG[^>]*>[\s\S]*?<\/TAG>/gi` by the empty
    string (`openTag` is `<TAG`, `closeTag` is `</TAG>`). -/
def removeBlocksFuel (openTag closeTag : List Char) : Nat → List Char → List Char
  | 0, l => l
  | _ + 1, [] => []
  | f + 1, c :: rest =>
    if ciIsPrefix openTag (c :: rest) then
      match afterGt (List.drop openTag.length (c :: rest)) with
      | some after =>
        match dropCiThrough closeTag after with
        | some rem => removeBlocksFuel openTag closeTag f rem
        | none => c :: removeBlocksFuel openTag closeTag f rest
      | none => c :: removeBlocksFuel openTag closeTag f rest
    else c :: removeBlocksFuel openTag closeTag f rest

/-- Split at the first `>`: the characters before it and the rest after it. -/
def splitGt : List Char → Option (List Char × List Char)
  | [] => none
  | c :: t =>
    if c = '>' then some ([], t)
    else (splitGt t).map (fun r => (c :: r.1, r.2))

/-- Global replacement of `/<[^>]+>/g` by a single space. -/
def stripTagsFuel : Nat → List Char → List Char
  | 0, l => l
  | _ + 1, [] => []
  | f + 1, c :: rest =>
    if c = '<' then
      match splitGt rest with
      | some (inside, after) =>
        if inside.isEmpty then c :: stripTagsFuel f rest
        else ' ' :: stripTagsFuel f after
      | none => c :: stripTagsFuel f rest
    else c :: stripTagsFuel f rest

/-- Global replacement of the literal `pat` by `rep` (leftmost, non-overlapping,
    the replacement is not rescanned), as JS `.replace(/pat/g, rep)`. -/
def replaceAllFuel (pat rep : List Char) : Nat → List Char → List Char
  | 0, l => l
  | _ + 1, [] => []
  | f + 1, c :: rest =>
    if pat.isPrefixOf (c :: rest) && !pat.isEmpty then
      rep ++ replaceAllFuel pat rep f (List.drop pat.length (c :: rest))
    else c :: replaceAllFuel pat rep f rest

/-- Collapse every run of whitespace to a single space (`/\s+/g` → `' '`). -/
def collapseWs : List Char → List Char
  | [] => []
  | [c] => if jsWs c then [' '] else [c]
  | c :: d :: rest =>
    if jsWs c && jsWs d then collapseWs (d :: rest)
    else (if jsWs c then ' ' else c) :: collapseWs (d :: rest)

/-- The full HTML-stripping pipeline of `parseEmail` for the HTML fallback body. -/
def htmlToText (html : String) : String :=
  let l0 := html.data
  let l1 := removeBlocksFuel "<style".data "</style>".data l0.length l0
  let l2 := removeBlocksFuel "<script".data "</script>".data l1.length l1
  let l3 := stripTagsFuel l2.length l2
  let decode := fun (pat rep : String) (l : List Char) =>
    replaceAllFuel pat.data rep.data l.length l
  let l4 := decode "&nbsp;" " " l3
  let l5 := decode "&amp;" "&" l4
  let l6 := decode "&lt;" "<" l5
  let l7 := decode "&gt;" ">" l6
  let l8 := decode "&quot;" "\"" l7
  let l9 := decode "&#39;" "'" l8
  jsTrim ⟨collapseWs l9⟩

/-! ### Email decomposition (parseEmail, emailParser.js)

`simpleParser` (the external `mailparser` library) is not part of the embedded
code; its output for a given raw message is the `EmailInput` structure below,
and `parseEmail`'s own computation on that output is embedded faithfully,
including every JS truthiness default.  A `Date` value is modelled by its ISO
string (the code only ever calls `toISOString()` on it). -/

/-- One attachment as produced by `mailparser`. -/
structure AttachmentInput where
  filename : Option String
  contentType : String
  contentDisposition : Option String
  size : Nat
  content : String
  deriving DecidableEq, Repr

/-- The `mailparser` output consumed by `parseEmail`. -/
structure EmailInput where
  text : Option String
  html : Option String
  fromText : Option String
  toText : Option String
  ccText : Option String
  subject : Option String
  date : Option String
  messageId : Option String
  inReplyTo : Option String
  attachments : List AttachmentInput
  deriving DecidableEq, Repr

/-- A retained attachment (`filename`, `contentType`, `size`, `content`). -/
structure RetainedAttachment where
  filename : String
  contentType : String
  size : Nat
  content : String
  deriving DecidableEq, Repr

/-- The attachment filter of `parseEmail`: inline attachments under 10240 bytes
    and attachments without a (truthy) filename are dropped. -/
def keepAttachment (a : AttachmentInput) : Bool :=
  if a.contentDisposition = some "inline" && a.size < 10240 then false
  else if !jsTruthy a.filename then false
  else true

/-- The projection `parseEmail` applies to a retained attachment. -/
def retainAttachment (a : AttachmentInput) : RetainedAttachment :=
  { filename := a.filename.getD ""
  , contentType := a.contentType
  , size := a.size
  , content := a.content }

/-- `(parsed.X?.text || '').split(',').map(s => s.trim()).filter(Boolean)`. -/
def splitAddr (o : Option String) : List String :=
  (((jsOrStr o "").splitOn ",").map jsTrim).filter (fun s => s ≠ "")

/-- The result of `parseEmail`. -/
structure EmailParsed where
  filepath : String
  filename : String
  from_ : String
  to_ : List String
  cc : List String
  subject : String
  date : Option String
  messageId : Option String
  inReplyTo : Option String
  bodyText : String
  fullContent : String
  attachments : List RetainedAttachment
  hasAttachments : Bool
  deriving DecidableEq, Repr

/-- `parsed.messageId || null` (and `inReplyTo` likewise). -/
def jsOrNull (o : Option String) : Option String :=
  match o with
  | some s => if s = "" then none else some s
  | none => none

/-- The header block of `parseEmail`: note that the code builds
    `[from, to, cc-or-null, subject, date, '---', ''].filter(Boolean).join('\n')`,
    so the trailing empty element is removed by `filter(Boolean)` and the block
    ends with `---` and no newline. -/
def emailHeaderBlock (from_ : String) (to_ cc : List String) (subject : String)
    (date : Option String) : String :=
  String.intercalate "\n"
    ((([some ("From: " ++ from_)
      , some ("To: " ++ String.intercalate ", " to_)
      , if cc.length > 0 then some ("CC: " ++ String.intercalate ", " cc) else none
      , some ("Subject: " ++ subject)
      , some ("Date: " ++ (match date with | some d => d | none => "Unknown"))
      , some "---"
      , some ""].filterMap id).filter (fun l => l ≠ "")))

/-- The pure computation of `parseEmail` on the parsed message. -/
def parseEmail (filepath : String) (e : EmailInput) : EmailParsed :=
  let bodyText :=
    if jsTruthy e.text then jsTrim (e.text.getD "")
    else if jsTruthy e.html then htmlToText (e.html.getD "")
    else ""
  let from_ := jsOrStr e.fromText "Unknown Sender"
  let to_ := splitAddr e.toText
  let cc := splitAddr e.ccText
  let subject := jsOrStr e.subject "(No Subject)"
  let headerBlock := emailHeaderBlock from_ to_ cc subject e.date
  let attachments := (e.attachments.filter keepAttachment).map retainAttachment
  { filepath := filepath
  , filename := basename filepath
  , from_ := from_
  , to_ := to_
  , cc := cc
  , subject := subject
  , date := e.date
  , messageId := jsOrNull e.messageId
  , inReplyTo := jsOrNull e.inReplyTo
  , bodyText := bodyText
  , fullContent := headerBlock ++ bodyText
  , attachments := attachments
  , hasAttachments := decide (attachments.length > 0) }

/-! ### File system model and saveAttachments (emailParser.js) -/

/-- A file system: files (path with content, the most recent write first) and
    directories.  `fs.existsSync` sees both. -/
structure Fs where
  files : List (String × String)
  dirs : List String
  deriving DecidableEq, Repr

/-- All existing paths. -/
def Fs.paths (fs : Fs) : List String := fs.dirs ++ fs.files.map Prod.fst

/-- `fs.existsSync`. -/
def Fs.existsPath (fs : Fs) (p : String) : Bool := fs.paths.any (fun q => q = p)

/-- `fs.readFileSync` (`none` models the thrown exception). -/
def Fs.read (fs : Fs) (p : String) : Option String :=
  (fs.files.find? (fun q => q.1 = p)).map Prod.snd

/-- `fs.writeFileSync` (a later write shadows an earlier one). -/
def Fs.write (fs : Fs) (p c : String) : Fs := { fs with files := (p, c) :: fs.files }

/-- `fs.mkdirSync(dir, { recursive: true })`: the model records the directory
    and its parent (the full ancestor chain is not needed). -/
def Fs.mkdirp (fs : Fs) (dir : String) : Fs :=
  { fs with dirs := dir :: dirname dir :: fs.dirs }

/-- The `if (!fs.existsSync(outputDir)) fs.mkdirSync(...)` preamble of
    `saveAttachments`. -/
def ensureDir (fs : Fs) (dir : String) : Fs :=
  if fs.existsPath dir then fs else fs.mkdirp dir

/-- The collision-loop candidate name `${base}_${counter}${ext}`. -/
def candidateName (base ext : String) (c : Nat) : String :=
  base ++ "_" ++ natRepr c ++ ext

/-- A name that stays directly inside the directory it is joined to: nonempty,
    not `.` or `..`, and free of path separators. -/
def simpleSegment (n : String) : Bool :=
  n ≠ "" && n ≠ "." && n ≠ ".." && !n.data.any (fun c => c = '/' || c = '\\')

/-- The candidate name `${base}_${counter}${ext}` joined to the directory. -/
def candidatePath (dir base ext : String) (c : Nat) : String :=
  pathJoin dir (candidateName base ext c)

/-- The `while (fs.existsSync(finalPath))` collision loop of `saveAttachments`.
    The fuel (number of existing paths plus one) is enough for the loop to find
    a free name, which `collisionLoop_fresh` proves. -/
def collisionLoop (fs : Fs) (dir base ext : String) : Nat → Nat → String
  | 0, c => candidatePath dir base ext c
  | f + 1, c =>
    if fs.existsPath (candidatePath dir base ext c) then
      collisionLoop fs dir base ext f (c + 1)
    else candidatePath dir base ext c

/-- `path.basename(safeName, ext)`: strips `ext` when it is a proper suffix. -/
def basenameDrop (s ext : String) : String :=
  if ext ≠ "" && ext ≠ s && strEndsWith s ext then ⟨s.data.take (s.length - ext.length)⟩
  else s

/-- The duplicate-name resolution of `saveAttachments`: the sanitized name
    itself if free, otherwise `${base}_${counter}${ext}` for the first free
    counter. -/
def resolveCollision (fs : Fs) (dir safeName : String) : String :=
  let filepath := pathJoin dir safeName
  if fs.existsPath filepath then
    let ext := extnameOfBase safeName
    let base := basenameDrop safeName ext
    collisionLoop fs dir base ext (fs.paths.length + 1) 1
  else filepath

/-- An element of the list returned by `saveAttachments`. -/
structure SavedFile where
  filename : String
  filepath : String
  contentType : String
  size : Nat
  deriving DecidableEq, Repr

/-- The body of the `for (const att of attachments)` loop of `saveAttachments`,
    iterated over the attachment list. -/
def saveAttachmentsGo (dir : String) : Fs → List RetainedAttachment →
    List SavedFile × Fs
  | fs, [] => ([], fs)
  | fs, a :: rest =>
    let safeName := sanitizeName a.filename
    let finalPath := resolveCollision fs dir safeName
    let fs' := fs.write finalPath a.content
    let r := saveAttachmentsGo dir fs' rest
    ({ filename := basename finalPath
     , filepath := finalPath
     , contentType := a.contentType
     , size := a.size } :: r.1, r.2)

/-- `saveAttachments(attachments, outputDir)` from emailParser.js, returning
    the saved-file descriptors and the updated file system. -/
def saveAttachments (fs : Fs) (atts : List RetainedAttachment) (dir : String) :
    List SavedFile × Fs :=
  saveAttachmentsGo dir (ensureDir fs dir) atts

/-! ### Store, environment and the watcher event handler (watcher.js)

Modelled from the spec: the external store (src/db/queries.js is not under
src/): `exists(filepath) → bool` and `create(record) → id` (§6), with records
kept in a list and ids counting creations.  Modelled from the spec: the
transcript-shape parser and the filename metadata parser (src/ingestion/
parser.js is not under src/): `parseTranscript` reads the file, recovers the
raw content string and content-derived duration/date/context hints, and drops
a document whose text is empty or whitespace-only after trimming (§4.2);
`parseFilenameMetadata` is a pure function of the filename returning optional
inferred date and call type (§4.4), kept abstract in the environment.  The
external extraction libraries (pdf-parse, mammoth, mailparser) are likewise
abstract functions from file content, with `none` modelling a thrown error. -/

/-- A transcript record (the persisted unit created via the store). -/
structure Transcript where
  filename : String
  filepath : String
  rawContent : String
  durationMinutes : Option Nat
  callDate : String
  context : String
  deriving DecidableEq, Repr

/-- `transcriptExists(filepath)`: does a record with this exact filepath exist? -/
def transcriptExists (records : List Transcript) (p : String) : Bool :=
  records.any (fun r => r.filepath = p)

/-- The pipeline state: file system, store records (most recent first), and the
    `onNewFile` events fired so far (id and filepath, most recent first). -/
structure St where
  fs : Fs
  records : List Transcript
  events : List (Nat × String)
  deriving DecidableEq, Repr

/-- `createTranscript` followed by the `onNewFile` callback; the id counts
    previously created records. -/
def createWithEvent (st : St) (rec : Transcript) (p : String) : St :=
  { st with
    records := rec :: st.records
    events := (st.records.length, p) :: st.events }

/-- Content-derived hints recovered by the transcript-shape parser. -/
structure TranscriptHints where
  durationMinutes : Option Nat
  callDate : String
  context : String

/-- `parseFilenameMetadata`'s result: optional inferred date and call type. -/
structure FilenameMetadata where
  date : Option String
  callType : Option String

/-- The functions the watcher calls that live outside the embedded code:
    content analysis of the transcript parser, the filename metadata parser,
    the PDF/DOCX extractors (functions of the file content; `none` is a thrown
    error), the email MIME parser, and `new Date().toISOString()`. -/
structure Env where
  hints : String → TranscriptHints
  parseFilenameMetadata : String → FilenameMetadata
  extractPdfText : String → Option String
  extractDocxText : String → Option String
  parseEml : String → Option EmailInput
  now : String

/-- The parsed result of the transcript-shape parser. -/
structure ParsedTranscript where
  filename : String
  rawContent : String
  durationMinutes : Option Nat
  callDate : String
  context : String

/-- Modelled from the spec: `parseTranscript` (src/ingestion/parser.js is not
    under src/).  Reads the file as text; per §4.2 a document whose extracted
    text is empty or whitespace-only after trimming is dropped (`none`, as is a
    read failure); otherwise the raw content string plus content-derived
    duration/date/context hints are returned. -/
def parseTranscript (env : Env) (fs : Fs) (p : String) : Option ParsedTranscript :=
  match fs.read p with
  | none => none
  | some content =>
    if jsTrim content = "" then none
    else
      let h := env.hints content
      some { filename := basename p
           , rawContent := content
           , durationMinutes := h.durationMinutes
           , callDate := h.callDate
           , context := h.context }

/-- The `txt/md/json/srt` branch of the watcher's `add` handler: parse, apply
    filename-metadata overrides (`filenameMeta.date || parsed.callDate`,
    `filenameMeta.callType || parsed.context`), create the record, fire the
    callback. -/
def handleText (env : Env) (st : St) (p : String) : St :=
  match parseTranscript env st.fs p with
  | none => st
  | some parsed =>
    let meta := env.parseFilenameMetadata parsed.filename
    createWithEvent st
      { filename := parsed.filename
      , filepath := p
      , rawContent := parsed.rawContent
      , durationMinutes := parsed.durationMinutes
      , callDate := jsOrStr meta.date parsed.callDate
      , context := jsOrStr meta.callType parsed.context } p

/-- The `.pdf`/`.docx` branch of the watcher's `add` handler. -/
def handlePdfDocx (env : Env) (st : St) (p ext : String) : St :=
  match st.fs.read p with
  | none => st
  | some bytes =>
    match (if ext = ".pdf" then env.extractPdfText bytes else env.extractDocxText bytes) with
    | none => st
    | some text =>
      if jsTrim text = "" then st
      else
        let filename := basename p
        let meta := env.parseFilenameMetadata filename
        createWithEvent st
          { filename := filename
          , filepath := p
          , rawContent := text
          , durationMinutes := none
          , callDate := jsOrStr meta.date env.now
          , context := jsOrStr meta.callType ("Watched file: " ++ filename) } p

/-- `email.date ? email.date.toISOString() : new Date().toISOString()`. -/
def jsDate (o : Option String) (now : String) : String := o.getD now

/-- The provenance header prepended to an attachment's extracted text
    (watcher.js, the `attachmentHeader` array joined by newlines). -/
def attachmentHeader (email : EmailParsed) (att : SavedFile) : String :=
  String.intercalate "\n"
    [ "[Attachment from email]"
    , "Email Subject: " ++ email.subject
    , "Email From: " ++ email.from_
    , "Email Date: " ++ (match email.date with | some d => d | none => "Unknown")
    , "Attachment: " ++ att.filename ++ " (" ++ att.contentType ++ ")"
    , "---"
    , "" ]

/-- One iteration of the attachment loop in the `.eml` branch: allow-list the
    extension, dedup-check the staged path, extract text by type, drop empty
    text, otherwise create the attachment record with its provenance header and
    context string. -/
def handleOneAttachment (env : Env) (email : EmailParsed) (st : St)
    (att : SavedFile) : St :=
  if !(ATTACHMENT_EXTENSIONS.any (fun e => e = lowerStr (extname att.filename))) then st
  else if transcriptExists st.records att.filepath then st
  else
    match
      (if lowerStr (extname att.filename) = ".pdf" then
        (st.fs.read att.filepath).bind env.extractPdfText
       else if lowerStr (extname att.filename) = ".docx" then
        (st.fs.read att.filepath).bind env.extractDocxText
       else st.fs.read att.filepath) with
    | none => st
    | some text =>
      if jsTrim text = "" then st
      else
        createWithEvent st
          { filename := att.filename
          , filepath := att.filepath
          , rawContent := attachmentHeader email att ++ text
          , durationMinutes := none
          , callDate := jsDate email.date env.now
          , context := "Attachment: " ++ att.filename ++ " (from \"" ++ email.subject ++ "\")" } att.filepath

/-- The attachment loop (sequential, as in the source). -/
def handleAttachments (env : Env) (email : EmailParsed) :
    List SavedFile → St → St
  | [], st => st
  | a :: rest, st => handleAttachments env email rest (handleOneAttachment env email st a)

/-- The transcript record created for an email's body. -/
def emailRecord (env : Env) (p : String) (email : EmailParsed) : Transcript :=
  { filename := email.filename
  , filepath := p
  , rawContent := email.fullContent
  , durationMinutes := none
  , callDate := jsDate email.date env.now
  , context := "Email: " ++ email.subject }

/-- The `.eml` branch after parsing: drop the email when the full content is
    empty, create the body record, then stage and process the attachments.
    (Creating a record does not change the file system, so the staging step
    reads `st.fs` directly.) -/
def handleEmlParsed (env : Env) (st : St) (p : String) (email : EmailParsed) : St :=
  if jsTrim email.fullContent = "" then st
  else
    if email.attachments.isEmpty then createWithEvent st (emailRecord env p email) p
    else
      handleAttachments env email
        (saveAttachments st.fs email.attachments (pathJoin (dirname p) ".prism-attachments")).1
        { createWithEvent st (emailRecord env p email) p with
          fs := (saveAttachments st.fs email.attachments
            (pathJoin (dirname p) ".prism-attachments")).2 }

/-- The `.eml` branch of the watcher's `add` handler. -/
def handleEml (env : Env) (st : St) (p : String) : St :=
  match st.fs.read p with
  | none => st
  | some raw =>
    match env.parseEml raw with
    | none => st
    | some einput => handleEmlParsed env st p (parseEmail p einput)

/-- The watcher's `add` handler (watcher.js lines 63–284): extension allow-list,
    ignore patterns, the dedup gate against the store, then the per-format
    branches. -/
def handleAdd (env : Env) (st : St) (p : String) : St :=
  if !(SUPPORTED_EXTENSIONS.any (fun e => e = lowerStr (extname p))) then st
  else if shouldIgnore p then st
  else if transcriptExists st.records p then st
  else if lowerStr (extname p) = ".eml" then handleEml env st p
  else if lowerStr (extname p) = ".pdf" || lowerStr (extname p) = ".docx" then
    handlePdfDocx env st p (lowerStr (extname p))
  else handleText env st p

/-! ### Helper lemmas -/

/-- A concrete environment used to evaluate the theorems on concrete inputs. -/
def envW : Env :=
  { hints := fun _ =>
      { durationMinutes := none, callDate := "2024-01-01T00:00:00.000Z", context := "Call" }
  , parseFilenameMetadata := fun _ => { date := none, callType := none }
  , extractPdfText := fun _ => none
  , extractDocxText := fun _ => none
  , parseEml := fun _ => none
  , now := "2025-01-01T00:00:00.000Z" }

/-- The extraction result the `add` handler tests for emptiness, per branch. -/
def extractedTextOf (env : Env) (st : St) (p : String) : Option String :=
  let ext := lowerStr (extname p)
  if ext = ".eml" then
    (st.fs.read p).bind (fun raw =>
      (env.parseEml raw).map (fun e => (parseEmail p e).fullContent))
  else if ext = ".pdf" then (st.fs.read p).bind env.extractPdfText
  else if ext = ".docx" then (st.fs.read p).bind env.extractDocxText
  else if [".txt", ".md", ".json", ".srt"].any (fun e => e = ext) then st.fs.read p
  else none

/-- A concrete state holding one Office lock file under the watch folder. -/
def stW : St :=
  { fs := { files := [("/watch/~$draft.docx", "hello")], dirs := ["/watch"] }
  , records := []
  , events := [] }

/-- A concrete state holding one whitespace-only text file. -/
def stW2 : St :=
  { fs := { files := [("/watch/empty.txt", "   \n ")], dirs := ["/watch"] }
  , records := []
  , events := [] }

/-- An environment whose filename metadata parser infers date `2023-03-15` and
    call type `Discovery Call`, while the content hints suggest a different
    date and context. -/
def envW3 : Env :=
  { hints := fun _ =>
      { durationMinutes := some 30, callDate := "2001-01-01T00:00:00.000Z"
      , context := "Content context" }
  , parseFilenameMetadata := fun _ =>
      { date := some "2023-03-15", callType := some "Discovery Call" }
  , extractPdfText := fun _ => none
  , extractDocxText := fun _ => none
  , parseEml := fun _ => none
  , now := "2025-01-01T00:00:00.000Z" }

/-- A concrete state holding one text file with content. -/
def stW3 : St :=
  { fs := { files := [("/watch/2023-03-15-discovery.txt", "Body of the call")], dirs := ["/watch"] }
  , records := []
  , events := [] }

/-! ### C1: the dedup gate -/

/-- Records with filepath `p` in the store. -/
def countAt (recs : List Transcript) (p : String) : Nat :=
  recs.countP (fun r => r.filepath = p)

/-- A concrete state in which `/watch/notes.txt` already has a record. -/
def stW6 : St :=
  { fs := { files := [("/watch/notes.txt", "Existing notes")], dirs := ["/watch"] }
  , records := [{ filename := "notes.txt", filepath := "/watch/notes.txt"
                , rawContent := "Existing notes", durationMinutes := none
                , callDate := "2024-01-01T00:00:00.000Z", context := "Call" }]
  , events := [(0, "/watch/notes.txt")] }

/-- A concrete parsed email with subject `Q3 Renewal`. -/
def emailW5 : EmailParsed :=
  parseEmail "/mail/w5.eml"
    { text := some "Please find the contract attached.", html := none
    , fromText := some "alice@x.com", toText := some "bob@x.com"
    , ccText := none, subject := some "Q3 Renewal"
    , date := some "2024-05-01T00:00:00.000Z", messageId := none, inReplyTo := none
    , attachments := [] }

/-- A concrete staged attachment file. -/
def savedW5 : List SavedFile :=
  [{ filename := "contract.txt", filepath := "/mail/.prism-attachments/contract.txt"
   , contentType := "text/plain", size := 5 }]

/-- A concrete state in which the staged attachment is on disk. -/
def stW5 : St :=
  { fs := { files := [("/mail/.prism-attachments/contract.txt", "Terms and conditions")]
          , dirs := ["/mail/.prism-attachments"] }
  , records := []
  , events := [] }

/-- The default record used to pick concrete list heads. -/
def defaultTranscript : Transcript :=
  { filename := "", filepath := "", rawContent := "", durationMinutes := none
  , callDate := "", context := "" }

/-- The record the attachment loop creates in the concrete scenario. -/
def rW5 : Transcript :=
  (handleAttachments envW emailW5 savedW5 stW5).records.headD defaultTranscript

/-! ### C7: email body preference and header block -/

/-- A concrete email with a nonempty plain-text part. -/
def eW7 : EmailInput :=
  { text := some "  plain part  ", html := some "<p>ignored</p>"
  , fromText := some "alice@x.com", toText := some "bob@x.com, carol@x.com"
  , ccText := some "", subject := some "Weekly sync"
  , date := some "2024-05-01T00:00:00.000Z", messageId := none, inReplyTo := none
  , attachments := [] }

/-- A concrete email whose plain-text part is present but empty. -/
def eC7 : EmailInput :=
  { text := some "", html := some "<p>Hi</p>"
  , fromText := some "alice@x.com", toText := some "bob@x.com"
  , ccText := none, subject := some "Empty text part"
  , date := none, messageId := none, inReplyTo := none
  , attachments := [] }

/-- A retained attachment: a regular PDF. -/
def aW1 : AttachmentInput :=
  { filename := some "contract.pdf", contentType := "application/pdf"
  , contentDisposition := none, size := 50000, content := "PDFBYTES" }

/-- An excluded attachment: a small inline image. -/
def aW2 : AttachmentInput :=
  { filename := some "sig.png", contentType := "image/png"
  , contentDisposition := some "inline", size := 512, content := "IMG" }

/-- An excluded attachment: no filename. -/
def aW3 : AttachmentInput :=
  { filename := none, contentType := "application/octet-stream"
  , contentDisposition := none, size := 99999, content := "BLOB" }

/-- A concrete email carrying the three attachments above. -/
def eW8 : EmailInput :=
  { text := some "See attached.", html := none
  , fromText := some "alice@x.com", toText := some "bob@x.com"
  , ccText := none, subject := some "Q3 Renewal"
  , date := some "2024-05-01T00:00:00.000Z", messageId := none, inReplyTo := none
  , attachments := [aW1, aW2, aW3] }

/-- Two identically named attachments within one email. -/
def attsW4 : List RetainedAttachment :=
  [ { filename := "contract.pdf", contentType := "application/pdf", size := 5
    , content := "AAA" }
  , { filename := "contract.pdf", contentType := "application/pdf", size := 6
    , content := "BBB" } ]

/-- A file system holding only the watched folder. -/
def fsW4 : Fs := { files := [], dirs := ["/w"] }

/-- The staging directory next to the email. -/
def dirW4 : String := "/w/.prism-attachments"

/-- An attachment whose filename is the path-traversal name `..`. -/
def attsW10 : List RetainedAttachment :=
  [{ filename := "..", contentType := "application/octet-stream", size := 1
   , content := "Z" }]

/-- The saved-file descriptor staged for the `..` attachment. -/
def sW10 : SavedFile :=
  (saveAttachments fsW4 attsW10 dirW4).1.headD
    { filename := "", filepath := "", contentType := "", size := 0 }

/-! ## Theorems -/

theorem digitChar_val {d : Nat} (h : d < 10) : (digitChar d).toNat - 48 = d := by
  interval_cases d <;> decide

theorem digitsVal_natDigitsRev : ∀ f n, n ≤ f → digitsVal (natDigitsRev f n) = n := by
  intro f
  induction f with
  | zero => intro n hn; interval_cases n; rfl
  | succ f ih =>
    intro n hn
    match n with
    | 0 => rfl
    | m + 1 =>
      show digitsVal (digitChar ((m + 1) % 10) :: natDigitsRev f ((m + 1) / 10)) = m + 1
      have hdiv : (m + 1) / 10 ≤ f := by
        have : (m + 1) / 10 < m + 1 := Nat.div_lt_self (Nat.succ_pos m) (by omega)
        omega
      simp only [digitsVal, ih _ hdiv, digitChar_val (Nat.mod_lt _ (by omega))]
      omega

theorem natRepr_inj : Function.Injective natRepr := by
  intro a b hab
  unfold natRepr at hab
  by_cases ha : a = 0 <;> by_cases hb : b = 0 <;> simp [ha, hb] at hab ⊢
  · -- a = 0, b ≠ 0 : "0" = render b
    exfalso
    have hdig : natDigitsRev (b + 1) b = ['0'] := by
      have := congrArg String.data hab
      simpa using (congrArg List.reverse this).symm
    have := digitsVal_natDigitsRev (b + 1) b (by omega)
    rw [hdig] at this
    simp [digitsVal] at this
    omega
  · exfalso
    have hdig : natDigitsRev (a + 1) a = ['0'] := by
      have := congrArg String.data hab
      simpa using congrArg List.reverse this
    have := digitsVal_natDigitsRev (a + 1) a (by omega)
    rw [hdig] at this
    simp [digitsVal] at this
    omega
  · have h1 := digitsVal_natDigitsRev (a + 1) a (by omega)
    have h2 := digitsVal_natDigitsRev (b + 1) b (by omega)
    have hdata := congrArg String.data hab
    simp only [String.data] at hdata
    have : natDigitsRev (a + 1) a = natDigitsRev (b + 1) b := by
      have := congrArg List.reverse hdata
      simpa using this
    rw [this, h2] at h1
    exact h1.symm

theorem shouldIgnore_of_basename {p : String}
    (h : IGNORED_PATTERNS.any (fun pat => pat (basename p)) = true) :
    shouldIgnore p = true := by
  rcases List.any_eq_true.mp h with ⟨pat, hmem, hpat⟩
  refine List.any_eq_true.mpr ⟨pat, hmem, ?_⟩
  simp only [hpat, Bool.true_or]

/-! ### C6: ignore patterns -/

/-- C6: a file whose basename matches any of the ignore patterns (dotfiles,
    `.tmp`, `.gsheet`, `.gdoc`, Office `~$` lock files, `.crdownload`, `.part`)
    produces no record and no event — the handler leaves the state unchanged;
    in particular this holds for the filenames `.DS_Store`, `report.tmp`,
    `budget.gsheet`, `~$draft.docx`, `movie.crdownload` and `file.part`. -/
theorem ignoredPatternsDropped (env : Env) (st : St) (p : String) :
    (IGNORED_PATTERNS.any (fun pat => pat (basename p)) = true →
      handleAdd env st p = st)
    ∧ (basename p ∈ [".DS_Store", "report.tmp", "budget.gsheet", "~$draft.docx",
        "movie.crdownload", "file.part"] → handleAdd env st p = st) := by
  constructor
  · intro h
    have hig := shouldIgnore_of_basename h
    unfold handleAdd
    by_cases hs : (SUPPORTED_EXTENSIONS.any (fun e => e = lowerStr (extname p))) = true
    · simp [hs, hig]
    · simp [Bool.not_eq_true] at hs
      simp [hs]
  · intro h
    have hig : shouldIgnore p = true := by
      apply shouldIgnore_of_basename
      simp only [List.mem_cons, List.not_mem_nil, or_false] at h
      rcases h with h | h | h | h | h | h <;> rw [h] <;> decide
    unfold handleAdd
    by_cases hs : (SUPPORTED_EXTENSIONS.any (fun e => e = lowerStr (extname p))) = true
    · simp [hs, hig]
    · simp [Bool.not_eq_true] at hs
      simp [hs]

theorem ignoredPatternsDropped_witness :
    basename "/watch/~$draft.docx" ∈ [".DS_Store", "report.tmp", "budget.gsheet",
      "~$draft.docx", "movie.crdownload", "file.part"]
    ∧ handleAdd envW stW "/watch/~$draft.docx" = stW :=
  ⟨by decide, (ignoredPatternsDropped envW stW "/watch/~$draft.docx").2 (by decide)⟩

/-! #### Dispatch lemmas for the `add` handler -/

theorem handleAdd_not_supported {env : Env} {st : St} {p : String}
    (hs : (SUPPORTED_EXTENSIONS.any (fun e => e = lowerStr (extname p))) = false) :
    handleAdd env st p = st := by
  unfold handleAdd
  rw [hs]
  rfl

theorem handleAdd_ignored {env : Env} {st : St} {p : String}
    (hig : shouldIgnore p = true) :
    handleAdd env st p = st := by
  unfold handleAdd
  by_cases hs : (SUPPORTED_EXTENSIONS.any (fun e => e = lowerStr (extname p))) = true
  · rw [hs, hig]; rfl
  · rw [Bool.not_eq_true] at hs
    rw [hs]; rfl

theorem handleAdd_exists {env : Env} {st : St} {p : String}
    (hex : transcriptExists st.records p = true) :
    handleAdd env st p = st := by
  unfold handleAdd
  by_cases hs : (SUPPORTED_EXTENSIONS.any (fun e => e = lowerStr (extname p))) = true
  · rw [hs]
    by_cases hig : shouldIgnore p = true
    · rw [hig]; rfl
    · rw [Bool.not_eq_true] at hig
      rw [hig, hex]; rfl
  · rw [Bool.not_eq_true] at hs
    rw [hs]; rfl

theorem handleAdd_eml {env : Env} {st : St} {p : String}
    (heml : lowerStr (extname p) = ".eml")
    (hig : shouldIgnore p = false) (hex : transcriptExists st.records p = false) :
    handleAdd env st p = handleEml env st p := by
  unfold handleAdd
  have hs : (SUPPORTED_EXTENSIONS.any (fun e => e = lowerStr (extname p))) = true := by
    rw [heml]; decide
  rw [hs, hig, hex, heml]
  rfl

theorem handleAdd_pdfdocx {env : Env} {st : St} {p : String}
    (hpd : lowerStr (extname p) = ".pdf" ∨ lowerStr (extname p) = ".docx")
    (hig : shouldIgnore p = false) (hex : transcriptExists st.records p = false) :
    handleAdd env st p = handlePdfDocx env st p (lowerStr (extname p)) := by
  unfold handleAdd
  have hs : (SUPPORTED_EXTENSIONS.any (fun e => e = lowerStr (extname p))) = true := by
    rcases hpd with h | h <;> rw [h] <;> decide
  have heml : ¬(lowerStr (extname p) = ".eml") := by
    rcases hpd with h | h <;> rw [h] <;> simp
  have hpd' : (lowerStr (extname p) = ".pdf" || lowerStr (extname p) = ".docx") = true := by
    rcases hpd with h | h <;> rw [h] <;> decide
  rw [hs, hig, hex, if_neg heml, hpd']
  rfl

theorem handleAdd_text {env : Env} {st : St} {p : String}
    (hneml : lowerStr (extname p) ≠ ".eml")
    (hnpdf : lowerStr (extname p) ≠ ".pdf")
    (hndocx : lowerStr (extname p) ≠ ".docx")
    (hs : (SUPPORTED_EXTENSIONS.any (fun e => e = lowerStr (extname p))) = true)
    (hig : shouldIgnore p = false) (hex : transcriptExists st.records p = false) :
    handleAdd env st p = handleText env st p := by
  unfold handleAdd
  have hpd : (lowerStr (extname p) = ".pdf" || lowerStr (extname p) = ".docx") = false := by
    simp [hnpdf, hndocx]
  rw [hs, hig, hex, if_neg hneml, hpd]
  rfl

/-- The `.pdf`/`.docx` branch either drops the file or creates exactly the
    record the source builds there. -/
theorem handlePdfDocx_cases (env : Env) (st : St) (p ext : String) :
    handlePdfDocx env st p ext = st
    ∨ ∃ text, handlePdfDocx env st p ext =
        createWithEvent st
          { filename := basename p, filepath := p, rawContent := text
          , durationMinutes := none
          , callDate := jsOrStr (env.parseFilenameMetadata (basename p)).date env.now
          , context := jsOrStr (env.parseFilenameMetadata (basename p)).callType
              ("Watched file: " ++ basename p) } p := by
  unfold handlePdfDocx
  split
  · exact Or.inl rfl
  · split
    · exact Or.inl rfl
    · split
      · exact Or.inl rfl
      · exact Or.inr ⟨_, rfl⟩

/-- The plain-text branch either drops the file or creates exactly the record
    the source builds there (the parsed filename is the basename). -/
theorem handleText_cases (env : Env) (st : St) (p : String) :
    handleText env st p = st
    ∨ ∃ parsed : ParsedTranscript, handleText env st p =
        createWithEvent st
          { filename := basename p, filepath := p, rawContent := parsed.rawContent
          , durationMinutes := parsed.durationMinutes
          , callDate := jsOrStr (env.parseFilenameMetadata (basename p)).date parsed.callDate
          , context := jsOrStr (env.parseFilenameMetadata (basename p)).callType
              parsed.context } p := by
  unfold handleText
  split
  · exact Or.inl rfl
  · rename_i parsed hp
    right
    unfold parseTranscript at hp
    split at hp
    · cases hp
    · split at hp
      · cases hp
      · cases hp
        exact ⟨_, rfl⟩

/-! ### C2: empty-content skip -/

/-- C2: a supported input file whose extracted text is empty or whitespace-only
    after trimming creates no record and fires no event — the handler leaves the
    state unchanged.  (`extractedTextOf` is the text the handler's own emptiness
    check inspects in each branch; for the plain-text family this relies on the
    spec-modelled `parseTranscript`.) -/
theorem handleText_empty {env : Env} {st : St} {p t : String}
    (hr : st.fs.read p = some t) (h2 : jsTrim t = "") :
    handleText env st p = st := by
  unfold handleText
  have hp : parseTranscript env st.fs p = none := by
    unfold parseTranscript
    simp only [hr]
    rw [if_pos h2]
  simp only [hp]

theorem emptyExtractedTextSkipped (env : Env) (st : St) (p : String) (t : String)
    (h1 : extractedTextOf env st p = some t) (h2 : jsTrim t = "") :
    handleAdd env st p = st := by
  unfold extractedTextOf at h1
  by_cases hs : (SUPPORTED_EXTENSIONS.any (fun e => e = lowerStr (extname p))) = true
  case neg => exact handleAdd_not_supported (Bool.not_eq_true _ |>.mp hs)
  by_cases hig : shouldIgnore p = true
  case pos => exact handleAdd_ignored hig
  by_cases hex : transcriptExists st.records p = true
  case pos => exact handleAdd_exists hex
  rw [Bool.not_eq_true] at hig hex
  by_cases heml : lowerStr (extname p) = ".eml"
  · rw [if_pos heml] at h1
    rw [handleAdd_eml heml hig hex]
    unfold handleEml
    rcases hr : st.fs.read p with _ | raw
    · simp only [hr]
    · rw [hr] at h1
      have h1' : (env.parseEml raw).map (fun e => (parseEmail p e).fullContent) = some t := h1
      rcases he : env.parseEml raw with _ | e
      · simp only [hr, he]
      · rw [he] at h1'
        have ht : (parseEmail p e).fullContent = t := Option.some.inj h1'
        simp only [hr, he]
        unfold handleEmlParsed
        rw [if_pos (show jsTrim (parseEmail p e).fullContent = "" by rw [ht]; exact h2)]
  · rw [if_neg heml] at h1
    by_cases hpdf : lowerStr (extname p) = ".pdf"
    · rw [if_pos hpdf] at h1
      rw [handleAdd_pdfdocx (Or.inl hpdf) hig hex]
      unfold handlePdfDocx
      rcases hr : st.fs.read p with _ | bytes
      · simp only [hr]
      · have h1' : env.extractPdfText bytes = some t := by rw [hr] at h1; exact h1
        simp only [hr, hpdf]
        simp [h1', h2]
    · rw [if_neg hpdf] at h1
      by_cases hdocx : lowerStr (extname p) = ".docx"
      · rw [if_pos hdocx] at h1
        rw [handleAdd_pdfdocx (Or.inr hdocx) hig hex]
        unfold handlePdfDocx
        rcases hr : st.fs.read p with _ | bytes
        · simp only [hr]
        · have h1' : env.extractDocxText bytes = some t := by rw [hr] at h1; exact h1
          simp only [hr, hdocx]
          simp [h1', h2]
      · rw [if_neg hdocx] at h1
        by_cases htf : ([".txt", ".md", ".json", ".srt"].any
            (fun e => e = lowerStr (extname p))) = true
        · rw [if_pos htf] at h1
          rw [handleAdd_text heml hpdf hdocx hs hig hex]
          exact handleText_empty h1 h2
        · rw [if_neg htf] at h1
          cases h1

theorem emptyExtractedTextSkipped_witness :
    extractedTextOf envW stW2 "/watch/empty.txt" = some "   \n " ∧ jsTrim "   \n " = ""
    ∧ handleAdd envW stW2 "/watch/empty.txt" = stW2 :=
  ⟨by decide, by decide,
   emptyExtractedTextSkipped envW stW2 "/watch/empty.txt" "   \n " (by decide) (by decide)⟩

/-! ### C3: filename metadata precedence -/

/-- C3: for a non-email file, whenever the filename metadata parser infers a
    (truthy) date `d` and the handler creates a record for the file, the
    record's `callDate` is `d`, overriding the content-derived date; likewise a
    truthy filename-inferred call type overrides the content-derived context. -/
theorem filenameMetadataPrecedence (env : Env) (st : St) (p : String) (d : String)
    (hd : (env.parseFilenameMetadata (basename p)).date = some d)
    (hne : d ≠ "")
    (heml : lowerStr (extname p) ≠ ".eml")
    (hcreated : (handleAdd env st p).records.length = st.records.length + 1) :
    ∃ r, (handleAdd env st p).records = r :: st.records ∧ r.callDate = d
      ∧ (∀ ct, (env.parseFilenameMetadata (basename p)).callType = some ct → ct ≠ "" →
          r.context = ct) := by
  by_cases hs : (SUPPORTED_EXTENSIONS.any (fun e => e = lowerStr (extname p))) = true
  case neg =>
    rw [handleAdd_not_supported (Bool.not_eq_true _ |>.mp hs)] at hcreated
    omega
  by_cases hig : shouldIgnore p = true
  case pos => rw [handleAdd_ignored hig] at hcreated; omega
  by_cases hex : transcriptExists st.records p = true
  case pos => rw [handleAdd_exists hex] at hcreated; omega
  rw [Bool.not_eq_true] at hig hex
  by_cases hpd : lowerStr (extname p) = ".pdf" ∨ lowerStr (extname p) = ".docx"
  case pos =>
    rw [handleAdd_pdfdocx hpd hig hex] at hcreated ⊢
    rcases handlePdfDocx_cases env st p (lowerStr (extname p)) with hcase | ⟨text, hcase⟩
    · rw [hcase] at hcreated; omega
    · rw [hcase]
      refine ⟨_, rfl, ?_, ?_⟩
      · simp [createWithEvent, jsOrStr, hd, hne]
      · intro ct hct hctne
        simp [createWithEvent, jsOrStr, hct, hctne]
  push_neg at hpd
  rw [handleAdd_text heml hpd.1 hpd.2 hs hig hex] at hcreated ⊢
  rcases handleText_cases env st p with hcase | ⟨parsed, hcase⟩
  · rw [hcase] at hcreated; omega
  · rw [hcase]
    refine ⟨_, rfl, ?_, ?_⟩
    · simp [createWithEvent, jsOrStr, hd, hne]
    · intro ct hct hctne
      simp [createWithEvent, jsOrStr, hct, hctne]

theorem transcriptExists_iff_countAt {recs : List Transcript} {p : String} :
    transcriptExists recs p = true ↔ 0 < countAt recs p := by
  rw [transcriptExists, countAt, List.any_eq_true, List.countP_pos_iff]

theorem countAt_eq_zero {recs : List Transcript} {p : String}
    (h : transcriptExists recs p = false) : countAt recs p = 0 := by
  rw [countAt, List.countP_eq_zero]
  exact List.any_eq_false.mp h

theorem countAt_create {st : St} {rec : Transcript} {q p : String}
    (h : rec.filepath = p) (h0 : countAt st.records p = 0) :
    countAt (createWithEvent st rec q).records p = 1 := by
  have hstep : countAt (createWithEvent st rec q).records p = countAt st.records p + 1 := by
    simp [countAt, createWithEvent, List.countP_cons, h]
  rw [hstep, h0]

theorem transcriptExists_create {st : St} {rec : Transcript} {q p : String}
    (h : rec.filepath = p) :
    transcriptExists (createWithEvent st rec q).records p = true := by
  simp [createWithEvent, transcriptExists, h]

theorem records_suffix_oneAtt (env : Env) (email : EmailParsed) (st : St) (a : SavedFile) :
    st.records <:+ (handleOneAttachment env email st a).records := by
  unfold handleOneAttachment
  split
  · exact List.suffix_refl _
  · split
    · exact List.suffix_refl _
    · split
      · exact List.suffix_refl _
      · split
        · exact List.suffix_refl _
        · exact List.suffix_cons _ _

theorem records_suffix_atts (env : Env) (email : EmailParsed) :
    ∀ (saved : List SavedFile) (st : St),
      st.records <:+ (handleAttachments env email saved st).records
  | [], _ => List.suffix_refl _
  | a :: rest, st =>
    (records_suffix_oneAtt env email st a).trans
      (records_suffix_atts env email rest (handleOneAttachment env email st a))

theorem transcriptExists_mono {recs recs' : List Transcript} (h : recs <:+ recs')
    {q : String} (he : transcriptExists recs q = true) :
    transcriptExists recs' q = true := by
  rcases List.any_eq_true.mp he with ⟨r, hm, hp⟩
  exact List.any_eq_true.mpr ⟨r, h.subset hm, hp⟩

theorem countAt_oneAtt (env : Env) (email : EmailParsed) (st : St) (a : SavedFile)
    {q : String} (h : transcriptExists st.records q = true) :
    countAt (handleOneAttachment env email st a).records q = countAt st.records q := by
  unfold handleOneAttachment
  split
  · rfl
  · split
    · rfl
    · rename_i hnex
      split
      · rfl
      · split
        · rfl
        · have hne : ¬(a.filepath = q) := fun hq => hnex (hq ▸ h)
          simp [createWithEvent, countAt, List.countP_cons, hne]

theorem countAt_atts (env : Env) (email : EmailParsed) :
    ∀ (saved : List SavedFile) (st : St) (q : String),
      transcriptExists st.records q = true →
      countAt (handleAttachments env email saved st).records q = countAt st.records q
  | [], _, _, _ => rfl
  | a :: rest, st, q, h => by
    have h2 : transcriptExists (handleOneAttachment env email st a).records q = true :=
      transcriptExists_mono (records_suffix_oneAtt env email st a) h
    show countAt (handleAttachments env email rest (handleOneAttachment env email st a)).records q
        = countAt st.records q
    rw [countAt_atts env email rest _ q h2, countAt_oneAtt env email st a h]

theorem handleEmlParsed_cases (env : Env) (st : St) (p : String) (email : EmailParsed) :
    handleEmlParsed env st p email = st
    ∨ handleEmlParsed env st p email = createWithEvent st (emailRecord env p email) p
    ∨ ∃ saved fs2, handleEmlParsed env st p email =
        handleAttachments env email saved
          { createWithEvent st (emailRecord env p email) p with fs := fs2 } := by
  unfold handleEmlParsed
  split
  · exact Or.inl rfl
  · split
    · exact Or.inr (Or.inl rfl)
    · exact Or.inr (Or.inr ⟨_, _, rfl⟩)

theorem handleEml_cases (env : Env) (st : St) (p : String) :
    handleEml env st p = st
    ∨ ∃ email, handleEml env st p = handleEmlParsed env st p email := by
  unfold handleEml
  split
  · exact Or.inl rfl
  · split
    · exact Or.inl rfl
    · exact Or.inr ⟨_, rfl⟩

/-- After handling, either nothing changed or a record for `p` exists. -/
theorem handleAdd_unchanged_or_recorded (env : Env) (st : St) (p : String) :
    handleAdd env st p = st ∨ transcriptExists (handleAdd env st p).records p = true := by
  by_cases hs : (SUPPORTED_EXTENSIONS.any (fun e => e = lowerStr (extname p))) = true
  case neg => exact Or.inl (handleAdd_not_supported (Bool.not_eq_true _ |>.mp hs))
  by_cases hig : shouldIgnore p = true
  case pos => exact Or.inl (handleAdd_ignored hig)
  by_cases hex : transcriptExists st.records p = true
  case pos => exact Or.inl (handleAdd_exists hex)
  rw [Bool.not_eq_true] at hig hex
  by_cases heml : lowerStr (extname p) = ".eml"
  · rw [handleAdd_eml heml hig hex]
    rcases handleEml_cases env st p with hcase | ⟨email, hcase⟩
    · exact Or.inl hcase
    · rcases handleEmlParsed_cases env st p email with hc | hc | ⟨saved, fs2, hc⟩
      · exact Or.inl (hcase.trans hc)
      · rw [hcase, hc]
        exact Or.inr (transcriptExists_create rfl)
      · rw [hcase, hc]
        right
        refine transcriptExists_mono (records_suffix_atts env email saved _) ?_
        exact @transcriptExists_create st (emailRecord env p email) p p rfl
  · by_cases hpd : lowerStr (extname p) = ".pdf" ∨ lowerStr (extname p) = ".docx"
    · rw [handleAdd_pdfdocx hpd hig hex]
      rcases handlePdfDocx_cases env st p (lowerStr (extname p)) with hc | ⟨text, hc⟩
      · exact Or.inl hc
      · rw [hc]
        exact Or.inr (transcriptExists_create rfl)
    · push_neg at hpd
      rw [handleAdd_text heml hpd.1 hpd.2 hs hig hex]
      rcases handleText_cases env st p with hc | ⟨parsed, hc⟩
      · exact Or.inl hc
      · rw [hc]
        exact Or.inr (transcriptExists_create rfl)

/-- On a fresh path, handling either changes nothing (and the count at `p`
    stays zero) or ends with exactly one record at `p`. -/
theorem handleAdd_countAfter (env : Env) (st : St) (p : String)
    (hnex : transcriptExists st.records p = false) :
    (handleAdd env st p = st ∧ countAt (handleAdd env st p).records p = 0)
    ∨ countAt (handleAdd env st p).records p = 1 := by
  have h0 : countAt st.records p = 0 := countAt_eq_zero hnex
  by_cases hs : (SUPPORTED_EXTENSIONS.any (fun e => e = lowerStr (extname p))) = true
  case neg =>
    have h := @handleAdd_not_supported env st p (Bool.not_eq_true _ |>.mp hs)
    exact Or.inl ⟨h, by rw [h]; exact h0⟩
  by_cases hig : shouldIgnore p = true
  case pos =>
    have h := @handleAdd_ignored env st p hig
    exact Or.inl ⟨h, by rw [h]; exact h0⟩
  rw [Bool.not_eq_true] at hig
  by_cases heml : lowerStr (extname p) = ".eml"
  · rw [handleAdd_eml heml hig hnex]
    rcases handleEml_cases env st p with hcase | ⟨email, hcase⟩
    · exact Or.inl ⟨hcase, by rw [hcase]; exact h0⟩
    · rcases handleEmlParsed_cases env st p email with hc | hc | ⟨saved, fs2, hc⟩
      · exact Or.inl ⟨hcase.trans hc, by rw [hcase, hc]; exact h0⟩
      · rw [hcase, hc]
        exact Or.inr (countAt_create rfl h0)
      · rw [hcase, hc]
        right
        have hex2 : transcriptExists
            ({ createWithEvent st (emailRecord env p email) p with fs := fs2 }).records p
            = true :=
          @transcriptExists_create st (emailRecord env p email) p p rfl
        rw [countAt_atts env email saved
          ({ createWithEvent st (emailRecord env p email) p with fs := fs2 }) p hex2]
        exact @countAt_create st (emailRecord env p email) p p rfl h0
  · by_cases hpd : lowerStr (extname p) = ".pdf" ∨ lowerStr (extname p) = ".docx"
    · rw [handleAdd_pdfdocx hpd hig hnex]
      rcases handlePdfDocx_cases env st p (lowerStr (extname p)) with hc | ⟨text, hc⟩
      · exact Or.inl ⟨hc, by rw [hc]; exact h0⟩
      · rw [hc]
        exact Or.inr (countAt_create rfl h0)
    · push_neg at hpd
      rw [handleAdd_text heml hpd.1 hpd.2 hs hig hnex]
      rcases handleText_cases env st p with hc | ⟨parsed, hc⟩
      · exact Or.inl ⟨hc, by rw [hc]; exact h0⟩
      · rw [hc]
        exact Or.inr (countAt_create rfl h0)

/-- C1: the dedup gate.  (i) If a record already exists for the exact filepath,
    the `add` handler leaves the whole state unchanged: no record, no event, no
    file-system change.  (ii) Handling the same path twice is the same as
    handling it once.  (iii) Starting with no record at the path, one pass
    leaves at most one record there, and (iv) exactly one when it did anything
    at all — so two full scans yield exactly one record per ingested path. -/
theorem dedupGateIdempotent (env : Env) (st : St) (p : String) :
    (transcriptExists st.records p = true → handleAdd env st p = st)
    ∧ handleAdd env (handleAdd env st p) p = handleAdd env st p
    ∧ (transcriptExists st.records p = false →
        countAt (handleAdd env st p).records p ≤ 1)
    ∧ (transcriptExists st.records p = false → handleAdd env st p ≠ st →
        countAt (handleAdd env st p).records p = 1) := by
  refine ⟨fun hex => handleAdd_exists hex, ?_, ?_, ?_⟩
  · rcases handleAdd_unchanged_or_recorded env st p with h | h
    · rw [h]
      exact h
    · exact handleAdd_exists h
  · intro hnex
    rcases handleAdd_countAfter env st p hnex with ⟨_, h⟩ | h <;> omega
  · intro hnex hchanged
    rcases handleAdd_countAfter env st p hnex with ⟨h, _⟩ | h
    · exact absurd h hchanged
    · exact h

theorem dedupGateIdempotent_witness :
    transcriptExists stW6.records "/watch/notes.txt" = true
    ∧ handleAdd envW stW6 "/watch/notes.txt" = stW6
    ∧ handleAdd envW (handleAdd envW stW6 "/watch/notes.txt") "/watch/notes.txt"
        = handleAdd envW stW6 "/watch/notes.txt"
    ∧ (transcriptExists stW3.records "/watch/2023-03-15-discovery.txt" = false
        ∧ countAt (handleAdd envW3 stW3 "/watch/2023-03-15-discovery.txt").records
            "/watch/2023-03-15-discovery.txt" = 1) :=
  ⟨by decide,
   (dedupGateIdempotent envW stW6 "/watch/notes.txt").1 (by decide),
   (dedupGateIdempotent envW stW6 "/watch/notes.txt").2.1,
   by decide,
   (dedupGateIdempotent envW3 stW3 "/watch/2023-03-15-discovery.txt").2.2.2 (by decide)
     (by decide)⟩

/-! ### C5: attachment provenance -/

theorem strContainsSub_of_parts (s m : String) (a c : List Char)
    (hs : s.data = a ++ (m.data ++ c)) : strContainsSub s m = true := by
  unfold strContainsSub
  apply List.any_eq_true.mpr
  refine ⟨m.data ++ c, ?_, ?_⟩
  · rw [List.mem_tails, hs]
    exact List.suffix_append a (m.data ++ c)
  · simpa [List.isPrefixOf_iff_prefix] using List.prefix_append m.data c

theorem isPrefixOf_append_data (h t : String) :
    h.data.isPrefixOf (h ++ t).data = true := by
  rw [String.data_append]
  simpa [List.isPrefixOf_iff_prefix] using List.prefix_append h.data t.data

/-- One attachment-loop iteration only ever adds a record carrying the
    attachment's context string and provenance-header-prefixed content. -/
theorem handleOneAttachment_mem (env : Env) (email : EmailParsed) (st : St)
    (a : SavedFile) :
    ∀ r ∈ (handleOneAttachment env email st a).records, r ∈ st.records ∨
      (r.context = "Attachment: " ++ a.filename ++ " (from \"" ++ email.subject ++ "\")"
       ∧ ∃ text, r.rawContent = attachmentHeader email a ++ text) := by
  intro r hr
  unfold handleOneAttachment at hr
  split at hr
  · exact Or.inl hr
  · split at hr
    · exact Or.inl hr
    · split at hr
      · exact Or.inl hr
      · split at hr
        · exact Or.inl hr
        · simp only [createWithEvent, List.mem_cons] at hr
          rcases hr with hr | hr
          · subst hr
            exact Or.inr ⟨rfl, _, rfl⟩
          · exact Or.inl hr

/-- Records added by the attachment loop all come from some staged file. -/
theorem handleAttachments_mem (env : Env) (email : EmailParsed) :
    ∀ (saved : List SavedFile) (st : St),
      ∀ r ∈ (handleAttachments env email saved st).records, r ∈ st.records ∨
        ∃ att ∈ saved,
          (r.context = "Attachment: " ++ att.filename ++ " (from \"" ++ email.subject ++ "\")"
           ∧ ∃ text, r.rawContent = attachmentHeader email att ++ text)
  | [], _ => by
    intro r hr
    exact Or.inl hr
  | a :: rest, st => by
    intro r hr
    rcases handleAttachments_mem env email rest (handleOneAttachment env email st a) r hr with
      hmem | ⟨att, hatt, hp⟩
    · rcases handleOneAttachment_mem env email st a r hmem with h | h
      · exact Or.inl h
      · exact Or.inr ⟨a, List.mem_cons_self a rest, h⟩
    · exact Or.inr ⟨att, List.mem_cons_of_mem a hatt, hp⟩

/-- C5: every record the attachment loop creates (i.e. every record in the
    resulting state that was not already in the store) belongs to some staged
    attachment `att`, its context string is exactly
    `Attachment: <name> (from "<subject>")` — in particular it contains the
    literal substring `from "<subject>"` — and its raw content starts with the
    provenance header giving the parent email's subject, sender, date and the
    attachment's name. -/
theorem attachmentProvenance (env : Env) (email : EmailParsed)
    (saved : List SavedFile) (st : St) :
    ∀ r ∈ (handleAttachments env email saved st).records, r ∉ st.records →
      ∃ att ∈ saved,
        r.context = "Attachment: " ++ att.filename ++ " (from \"" ++ email.subject ++ "\")"
        ∧ strContainsSub r.context ("from \"" ++ email.subject ++ "\"") = true
        ∧ (attachmentHeader email att).data.isPrefixOf r.rawContent.data = true := by
  intro r hr hnot
  rcases handleAttachments_mem env email saved st r hr with h | ⟨att, hatt, hctx, text, hraw⟩
  · exact absurd h hnot
  · refine ⟨att, hatt, hctx, ?_, ?_⟩
    · rw [hctx]
      apply strContainsSub_of_parts _ _ ("Attachment: " ++ att.filename ++ " (").data (")").data
      have e1 : (" (from \"" : String).data
          = (" (" : String).data ++ ("from \"" : String).data := rfl
      have e2 : ("\")" : String).data = ("\"" : String).data ++ (")" : String).data := rfl
      simp only [String.data_append, e1, e2, List.append_assoc]
      simp
    · rw [hraw]
      exact isPrefixOf_append_data _ _

set_option maxRecDepth 4000 in
theorem attachmentProvenance_witness :
    rW5 ∈ (handleAttachments envW emailW5 savedW5 stW5).records
    ∧ rW5 ∉ stW5.records
    ∧ ∃ att ∈ savedW5,
        rW5.context = "Attachment: " ++ att.filename ++ " (from \"" ++ emailW5.subject ++ "\")"
        ∧ strContainsSub rW5.context ("from \"" ++ emailW5.subject ++ "\"") = true
        ∧ (attachmentHeader emailW5 att).data.isPrefixOf rW5.rawContent.data = true :=
  ⟨by decide, by decide,
   attachmentProvenance envW emailW5 savedW5 stW5 rW5 (by decide) (by decide)⟩

/-- C7 (amended): the body text equals the trimmed plain-text part when a
    nonempty one exists; when no nonempty plain-text part exists but a nonempty
    HTML part does, the body text is the HTML part with style/script blocks and
    tags stripped and the common entities decoded (the source's stripping
    pipeline, `htmlToText`); and the stored full content is the header block of
    From, To, CC (when present), Subject and Date prepended to that body text. -/
theorem emailBodyPreference (p : String) (e : EmailInput) :
    (∀ t, e.text = some t → t ≠ "" → (parseEmail p e).bodyText = jsTrim t)
    ∧ (jsTruthy e.text = false → ∀ h, e.html = some h → h ≠ "" →
        (parseEmail p e).bodyText = htmlToText h)
    ∧ (parseEmail p e).fullContent =
        emailHeaderBlock (jsOrStr e.fromText "Unknown Sender") (splitAddr e.toText)
          (splitAddr e.ccText) (jsOrStr e.subject "(No Subject)") e.date
        ++ (parseEmail p e).bodyText := by
  refine ⟨?_, ?_, ?_⟩
  · intro t ht hne
    have htr : jsTruthy (some t) = true := by simpa [jsTruthy] using hne
    simp [parseEmail, ht, htr]
  · intro htext h hh hne
    have hhr : jsTruthy (some h) = true := by simpa [jsTruthy] using hne
    simp [parseEmail, htext, hh, hhr]
  · simp [parseEmail]

theorem emailBodyPreference_witness :
    eW7.text = some "  plain part  "
    ∧ (parseEmail "/mail/w7.eml" eW7).bodyText = jsTrim "  plain part  "
    ∧ (parseEmail "/mail/w7.eml" eW7).fullContent =
        emailHeaderBlock (jsOrStr eW7.fromText "Unknown Sender") (splitAddr eW7.toText)
          (splitAddr eW7.ccText) (jsOrStr eW7.subject "(No Subject)") eW7.date
        ++ (parseEmail "/mail/w7.eml" eW7).bodyText :=
  ⟨by decide,
   (emailBodyPreference "/mail/w7.eml" eW7).1 "  plain part  " (by decide) (by decide),
   (emailBodyPreference "/mail/w7.eml" eW7).2.2⟩

/-- C7 counterexample: an email whose plain-text part exists but is the empty
    string and whose HTML part is nonempty.  The claim as stated ("the body
    text equals the trimmed plain-text part when one exists") fails: the code
    treats the empty text part as absent (JS truthiness) and falls back to the
    stripped HTML. -/
theorem emailBodyPreference_counterexample :
    eC7.text = some "" ∧ (parseEmail "/mail/c7.eml" eC7).bodyText ≠ jsTrim "" := by
  constructor
  · rfl
  · decide

/-! ### C8: attachment filter -/

/-- C8: an attachment of a parsed email is excluded from the retained set iff
    it is an inline attachment with size below 10240 bytes or it lacks a
    (truthy) filename; every other attachment is retained, carrying its
    declared content type and byte size. -/
theorem attachmentFilterCorrect (p : String) (e : EmailInput) :
    ((parseEmail p e).attachments = (e.attachments.filter keepAttachment).map retainAttachment)
    ∧ (∀ a : AttachmentInput, keepAttachment a = false ↔
        ((a.contentDisposition = some "inline" ∧ a.size < 10240)
          ∨ a.filename = none ∨ a.filename = some ""))
    ∧ (∀ a : AttachmentInput,
        (retainAttachment a).contentType = a.contentType
        ∧ (retainAttachment a).size = a.size) := by
  refine ⟨rfl, ?_, fun a => ⟨rfl, rfl⟩⟩
  intro a
  unfold keepAttachment
  constructor
  · intro h
    by_cases h1 : (a.contentDisposition = some "inline" ∧ a.size < 10240)
    · exact Or.inl h1
    · right
      rw [if_neg (by simpa [not_and_or, Decidable.not_not] using h1)] at h
      by_cases h2 : jsTruthy a.filename = true
      · simp [h2] at h
      · rw [Bool.not_eq_true] at h2
        cases hf : a.filename with
        | none => exact Or.inl rfl
        | some s =>
          rw [hf] at h2
          simp [jsTruthy] at h2
          exact Or.inr (by rw [h2])
  · intro h
    rcases h with ⟨hd, hs⟩ | hf | hf
    · rw [if_pos (by simp [hd, hs])]
    · have : jsTruthy a.filename = false := by simp [jsTruthy, hf]
      by_cases h1 : (a.contentDisposition = some "inline" ∧ a.size < 10240)
      · rw [if_pos (by simp [h1.1, h1.2])]
      · rw [if_neg (by simpa [not_and_or, Decidable.not_not] using h1), if_pos (by simp [this])]
    · have : jsTruthy a.filename = false := by simp [jsTruthy, hf]
      by_cases h1 : (a.contentDisposition = some "inline" ∧ a.size < 10240)
      · rw [if_pos (by simp [h1.1, h1.2])]
      · rw [if_neg (by simpa [not_and_or, Decidable.not_not] using h1), if_pos (by simp [this])]

theorem attachmentFilterCorrect_witness :
    keepAttachment aW1 = true ∧ keepAttachment aW2 = false ∧ keepAttachment aW3 = false
    ∧ (parseEmail "/mail/w8.eml" eW8).attachments
        = (eW8.attachments.filter keepAttachment).map retainAttachment
    ∧ (keepAttachment aW2 = false ↔
        ((aW2.contentDisposition = some "inline" ∧ aW2.size < 10240)
          ∨ aW2.filename = none ∨ aW2.filename = some "")) :=
  ⟨by decide, by decide, by decide,
   (attachmentFilterCorrect "/mail/w8.eml" eW8).1,
   (attachmentFilterCorrect "/mail/w8.eml" eW8).2.1 aW2⟩

/-! ### C4 and C10: collision-safe, contained staging of attachments -/

theorem underscore_mem_candidateName (base ext : String) (c : Nat) :
    '_' ∈ (candidateName base ext c).data := by
  unfold candidateName
  simp only [String.data_append, List.mem_append]
  exact Or.inl (Or.inl (Or.inr (by decide)))

theorem candidateName_not_special (base ext : String) (c : Nat) :
    candidateName base ext c ≠ "" ∧ candidateName base ext c ≠ "."
    ∧ candidateName base ext c ≠ ".." := by
  have hmem := underscore_mem_candidateName base ext c
  refine ⟨?_, ?_, ?_⟩ <;> intro h <;> rw [h] at hmem <;> simp at hmem

theorem candidatePath_eq (dir base ext : String) (c : Nat) :
    candidatePath dir base ext c = dir ++ "/" ++ candidateName base ext c := by
  have h := candidateName_not_special base ext c
  unfold candidatePath pathJoin
  rw [if_neg h.1, if_neg h.2.1, if_neg h.2.2]

theorem candidateName_inj (base ext : String) :
    Function.Injective (candidateName base ext) := by
  intro c1 c2 h
  unfold candidateName at h
  have hd := congrArg String.data h
  simp only [String.data_append, List.append_assoc] at hd
  have h1 := List.append_cancel_left hd
  have h2 := List.append_cancel_left h1
  have h3 := List.append_cancel_right h2
  exact natRepr_inj (String.ext h3)

theorem candidatePath_inj (dir base ext : String) :
    Function.Injective (candidatePath dir base ext) := by
  intro c1 c2 h
  rw [candidatePath_eq, candidatePath_eq] at h
  have hd := congrArg String.data h
  simp only [String.data_append, List.append_assoc] at hd
  have h1 := List.append_cancel_left (List.append_cancel_left hd)
  exact candidateName_inj base ext (String.ext h1)

theorem exists_free_candidate (fs : Fs) (dir base ext : String) (c0 : Nat) :
    ∃ k < fs.paths.length + 1,
      fs.existsPath (candidatePath dir base ext (c0 + k)) = false := by
  by_contra hcon
  push_neg at hcon
  have hall : ∀ k < fs.paths.length + 1, candidatePath dir base ext (c0 + k) ∈ fs.paths := by
    intro k hk
    have htrue : fs.existsPath (candidatePath dir base ext (c0 + k)) = true := by
      rcases hb : fs.existsPath (candidatePath dir base ext (c0 + k)) with _ | _
      · exact absurd hb (hcon k hk)
      · rfl
    rcases List.any_eq_true.mp htrue with ⟨q, hq, hqe⟩
    simp only [decide_eq_true_eq] at hqe
    exact hqe ▸ hq
  have hcard : (Finset.range (fs.paths.length + 1)).card ≤ fs.paths.toFinset.card := by
    apply Finset.card_le_card_of_injOn (fun k => candidatePath dir base ext (c0 + k))
    · intro k hk
      rw [List.mem_toFinset]
      exact hall k (Finset.mem_range.mp hk)
    · intro k1 _ k2 _ he
      have := candidatePath_inj dir base ext he
      omega
  rw [Finset.card_range] at hcard
  have := fs.paths.toFinset_card_le
  omega

theorem collisionLoop_fresh (fs : Fs) (dir base ext : String) :
    ∀ (f c0 : Nat), (∃ k < f, fs.existsPath (candidatePath dir base ext (c0 + k)) = false) →
      fs.existsPath (collisionLoop fs dir base ext f c0) = false
  | 0, c0 => by
    intro h
    rcases h with ⟨k, hk, _⟩
    omega
  | f + 1, c0 => by
    intro h
    unfold collisionLoop
    by_cases hc : fs.existsPath (candidatePath dir base ext c0) = true
    · rw [if_pos hc]
      apply collisionLoop_fresh fs dir base ext f (c0 + 1)
      rcases h with ⟨k, hk, hfree⟩
      match k with
      | 0 =>
        rw [Nat.add_zero] at hfree
        rw [hfree] at hc
        cases hc
      | k' + 1 =>
        exact ⟨k', by omega, by rw [show c0 + 1 + k' = c0 + (k' + 1) by omega]; exact hfree⟩
    · rw [Bool.not_eq_true] at hc
      rw [if_neg (by rw [hc]; exact Bool.false_ne_true)]
      exact hc

theorem resolveCollision_fresh (fs : Fs) (dir s : String) :
    fs.existsPath (resolveCollision fs dir s) = false := by
  unfold resolveCollision
  by_cases h : fs.existsPath (pathJoin dir s) = true
  · rw [if_pos h]
    apply collisionLoop_fresh
    rcases exists_free_candidate fs dir (basenameDrop s (extnameOfBase s)) (extnameOfBase s) 1
      with ⟨k, hk, hfree⟩
    exact ⟨k, hk, hfree⟩
  · rw [Bool.not_eq_true] at h
    rw [if_neg (by rw [h]; exact Bool.false_ne_true)]
    exact h

theorem existsPath_write_self (fs : Fs) (p c : String) :
    (fs.write p c).existsPath p = true := by
  simp [Fs.write, Fs.existsPath, Fs.paths, List.any_append]

theorem existsPath_write_mono {fs : Fs} {q : String} (p c : String)
    (h : fs.existsPath q = true) : (fs.write p c).existsPath q = true := by
  simp only [Fs.write, Fs.existsPath, Fs.paths, List.any_append] at h ⊢
  rcases Bool.or_eq_true_iff.mp h with h1 | h1
  · exact Bool.or_eq_true_iff.mpr (Or.inl h1)
  · refine Bool.or_eq_true_iff.mpr (Or.inr ?_)
    simp only [List.map_cons, List.any_cons]
    exact Bool.or_eq_true_iff.mpr (Or.inr h1)

theorem read_write_self (fs : Fs) (p c : String) : (fs.write p c).read p = some c := by
  simp [Fs.write, Fs.read]

theorem read_write_ne {q p : String} (fs : Fs) (c : String) (h : q ≠ p) :
    (fs.write p c).read q = fs.read q := by
  simp only [Fs.write, Fs.read, List.find?]
  rw [show (decide (p = q)) = false by
    simp only [decide_eq_false_iff_not]
    exact fun he => h he.symm]

/-- The cons equation of `saveAttachmentsGo` with the let-bindings expanded. -/
theorem saveAttachmentsGo_cons (dir : String) (fs : Fs) (a : RetainedAttachment)
    (rest : List RetainedAttachment) :
    saveAttachmentsGo dir fs (a :: rest)
    = ({ filename := basename (resolveCollision fs dir (sanitizeName a.filename))
       , filepath := resolveCollision fs dir (sanitizeName a.filename)
       , contentType := a.contentType
       , size := a.size } ::
        (saveAttachmentsGo dir
          (fs.write (resolveCollision fs dir (sanitizeName a.filename)) a.content) rest).1,
       (saveAttachmentsGo dir
         (fs.write (resolveCollision fs dir (sanitizeName a.filename)) a.content) rest).2) :=
  rfl

/-- The central specification of the staging loop: one saved file per
    attachment, every saved path fresh relative to the starting file system,
    pairwise-distinct saved paths, preservation of pre-existing files, and each
    attachment's bytes present at its own saved path afterwards. -/
theorem saveAttachmentsGo_spec (dir : String) :
    ∀ (atts : List RetainedAttachment) (fs : Fs),
      ((saveAttachmentsGo dir fs atts).1.length = atts.length)
      ∧ (∀ s ∈ (saveAttachmentsGo dir fs atts).1, fs.existsPath s.filepath = false)
      ∧ ((saveAttachmentsGo dir fs atts).1.map (fun s => s.filepath)).Nodup
      ∧ (∀ q, fs.existsPath q = true →
          (saveAttachmentsGo dir fs atts).2.read q = fs.read q)
      ∧ (∀ i (h1 : i < (saveAttachmentsGo dir fs atts).1.length) (h2 : i < atts.length),
          (saveAttachmentsGo dir fs atts).2.read
            (((saveAttachmentsGo dir fs atts).1.get ⟨i, h1⟩).filepath)
          = some ((atts.get ⟨i, h2⟩).content))
  | [], fs => by
    refine ⟨rfl, ?_, List.nodup_nil, fun q _ => rfl, ?_⟩
    · intro s hs
      cases hs
    · intro i h1 h2
      cases h2
  | a :: rest, fs => by
    have hfresh : fs.existsPath (resolveCollision fs dir (sanitizeName a.filename)) = false :=
      resolveCollision_fresh fs dir (sanitizeName a.filename)
    have ih := saveAttachmentsGo_spec dir rest
      (fs.write (resolveCollision fs dir (sanitizeName a.filename)) a.content)
    rw [saveAttachmentsGo_cons]
    obtain ⟨ihlen, ihfresh, ihnodup, ihpres, ihcont⟩ := ih
    have hmono : ∀ q, fs.existsPath q = true →
        (fs.write (resolveCollision fs dir (sanitizeName a.filename)) a.content).existsPath q
          = true :=
      fun q hq => existsPath_write_mono _ _ hq
    refine ⟨?_, ?_, ?_, ?_, ?_⟩
    · simpa using ihlen
    · intro s hs
      rcases List.mem_cons.mp hs with hs | hs

      · rw [hs]
        exact hfresh
      · rcases hb : fs.existsPath s.filepath with _ | _
        · rfl
        · have := ihfresh s hs
          rw [hmono s.filepath hb] at this
          cases this
    · refine List.nodup_cons.mpr ⟨?_, ihnodup⟩
      intro hmem
      rcases List.mem_map.mp hmem with ⟨s, hs, heq⟩
      have := ihfresh s hs
      rw [heq, existsPath_write_self] at this
      cases this
    · intro q hq
      rw [ihpres q (hmono q hq)]
      exact read_write_ne _ _ (fun he => by rw [he] at hq; rw [hq] at hfresh; cases hfresh)
    · intro i h1 h2
      match i with
      | 0 =>
        show (saveAttachmentsGo dir _ rest).2.read
            (resolveCollision fs dir (sanitizeName a.filename)) = some a.content
        rw [ihpres _ (existsPath_write_self fs _ a.content)]
        exact read_write_self fs _ a.content
      | i + 1 =>
        exact ihcont i (by simpa using h1) (by simpa using h2)

/-- C4: staging an attachment list writes each attachment to a distinct
    on-disk path (collisions resolved by the numeric-suffix loop), never
    overwrites an existing file, and afterwards every attachment's bytes are
    readable at its own saved path — identically named attachments included. -/
theorem attachmentCollisionSafety (fs : Fs) (atts : List RetainedAttachment) (dir : String) :
    ((saveAttachments fs atts dir).1.length = atts.length)
    ∧ ((saveAttachments fs atts dir).1.map (fun s => s.filepath)).Nodup
    ∧ (∀ q, (ensureDir fs dir).existsPath q = true →
        (saveAttachments fs atts dir).2.read q = (ensureDir fs dir).read q)
    ∧ (∀ i (h1 : i < (saveAttachments fs atts dir).1.length) (h2 : i < atts.length),
        (saveAttachments fs atts dir).2.read
          (((saveAttachments fs atts dir).1.get ⟨i, h1⟩).filepath)
        = some ((atts.get ⟨i, h2⟩).content)) := by
  obtain ⟨hlen, _, hnodup, hpres, hcont⟩ := saveAttachmentsGo_spec dir atts (ensureDir fs dir)
  exact ⟨hlen, hnodup, hpres, hcont⟩

theorem sanitizeName_no_sep (f : String) {c : Char} (hc : c = '/' ∨ c = '\\') :
    c ∉ (sanitizeName f).data := by
  intro h
  have h' := List.mem_of_mem_take h
  rcases List.mem_map.mp h' with ⟨d, _, hd⟩
  by_cases hr : reservedChars.contains d = true
  · rw [if_pos hr] at hd
    rcases hc with hc | hc <;> rw [hc] at hd <;> exact absurd hd (by decide)
  · rw [Bool.not_eq_true] at hr
    rw [if_neg (by rw [hr]; exact Bool.false_ne_true)] at hd
    subst hd
    rcases hc with hc | hc <;> subst hc
    · exact absurd hr (by decide)
    · exact absurd hr (by decide)

theorem extnameOfBase_chars (s : String) {c : Char} (h : c ∈ (extnameOfBase s).data) :
    c ∈ s.data := by
  unfold extnameOfBase at h
  by_cases hdd : s = ".."
  · rw [if_pos hdd] at h
    simp at h
  · rw [if_neg hdd] at h
    rcases hli : lastIndexOf '.' s.data with _ | i
    · rw [hli] at h
      simp at h
    · rw [hli] at h
      match i, h with
      | 0, h => simp at h
      | j + 1, h =>
        have h' : c ∈ s.data.drop (j + 1) := h
        exact List.mem_of_mem_drop h'

theorem basenameDrop_chars (s ext : String) {c : Char}
    (h : c ∈ (basenameDrop s ext).data) : c ∈ s.data := by
  unfold basenameDrop at h
  split at h
  · exact List.mem_of_mem_take h
  · exact h

theorem natDigitsRev_chars :
    ∀ (f n : Nat) {c : Char}, c ∈ natDigitsRev f n → ∃ d, d < 10 ∧ c = digitChar d
  | 0, _, _, h => by cases h
  | _ + 1, 0, _, h => by cases h
  | f + 1, n + 1, c, h => by
    rcases List.mem_cons.mp h with h | h
    · exact ⟨(n + 1) % 10, Nat.mod_lt _ (by omega), h⟩
    · exact natDigitsRev_chars f ((n + 1) / 10) h

theorem natRepr_chars {n : Nat} {c : Char} (h : c ∈ (natRepr n).data) :
    ∃ d, d < 10 ∧ c = digitChar d := by
  unfold natRepr at h
  split at h
  · refine ⟨0, by omega, ?_⟩
    simp at h
    rw [h]
    decide
  · have h' : c ∈ (natDigitsRev (n + 1) n).reverse := h
    exact natDigitsRev_chars (n + 1) n (List.mem_reverse.mp h')

theorem candidateName_simple {base ext : String}
    (hb : ∀ c ∈ base.data, ¬(c = '/' ∨ c = '\\'))
    (he : ∀ c ∈ ext.data, ¬(c = '/' ∨ c = '\\')) (c : Nat) :
    simpleSegment (candidateName base ext c) = true := by
  have h1 := candidateName_not_special base ext c
  simp only [simpleSegment, Bool.and_eq_true, decide_eq_true_eq, ne_eq, Bool.not_eq_true']
  refine ⟨⟨⟨h1.1, h1.2.1⟩, h1.2.2⟩, ?_⟩
  rw [List.any_eq_false]
  intro d hd
  have hdisj : d ∈ base.data ∨ d ∈ ("_" : String).data
      ∨ d ∈ (natRepr c).data ∨ d ∈ ext.data := by
    unfold candidateName at hd
    simp only [String.data_append, List.mem_append] at hd
    tauto
  have hne : ¬(d = '/' ∨ d = '\\') := by
    rcases hdisj with h | h | h | h
    · exact hb d h
    · have : d = '_' := by simpa using h
      rw [this]
      decide
    · obtain ⟨k, hk, hke⟩ := natRepr_chars h
      have hdig : ∀ m, m < 10 → ¬(digitChar m = '/' ∨ digitChar m = '\\') := by decide
      rw [hke]
      exact hdig k hk
    · exact he d h
  simp only [Bool.or_eq_true, decide_eq_true_eq]
  exact hne

theorem collisionLoop_shape (fs : Fs) (dir base ext : String) :
    ∀ (f c0 : Nat), ∃ c, collisionLoop fs dir base ext f c0 = candidatePath dir base ext c
  | 0, c0 => ⟨c0, rfl⟩
  | f + 1, c0 => by
    unfold collisionLoop
    split
    · exact collisionLoop_shape fs dir base ext f (c0 + 1)
    · exact ⟨c0, rfl⟩

theorem resolveCollision_shape (fs : Fs) (dir f : String)
    (hdir : fs.existsPath dir = true) (hpar : fs.existsPath (dirname dir) = true) :
    ∃ n, resolveCollision fs dir (sanitizeName f) = dir ++ "/" ++ n
      ∧ simpleSegment n = true := by
  have hnosep : ∀ c ∈ (sanitizeName f).data, ¬(c = '/' ∨ c = '\\') :=
    fun c hc hor => sanitizeName_no_sep f hor hc
  unfold resolveCollision
  by_cases hex : fs.existsPath (pathJoin dir (sanitizeName f)) = true
  · rw [if_pos hex]
    obtain ⟨c, hc⟩ := collisionLoop_shape fs dir
      (basenameDrop (sanitizeName f) (extnameOfBase (sanitizeName f)))
      (extnameOfBase (sanitizeName f)) (fs.paths.length + 1) 1
    rw [hc, candidatePath_eq]
    refine ⟨_, rfl, candidateName_simple ?_ ?_ c⟩
    · exact fun d hd => hnosep d (basenameDrop_chars _ _ hd)
    · exact fun d hd => hnosep d (extnameOfBase_chars _ hd)
  · have hne : sanitizeName f ≠ "" ∧ sanitizeName f ≠ "." ∧ sanitizeName f ≠ ".." := by
      refine ⟨?_, ?_, ?_⟩ <;> intro h <;> apply hex <;> rw [h]
      · show fs.existsPath (pathJoin dir "") = true
        unfold pathJoin
        rw [if_pos rfl]
        exact hdir
      · show fs.existsPath (pathJoin dir ".") = true
        unfold pathJoin
        rw [if_neg (by decide), if_pos rfl]
        exact hdir
      · show fs.existsPath (pathJoin dir "..") = true
        unfold pathJoin
        rw [if_neg (by decide), if_neg (by decide), if_pos rfl]
        exact hpar
    rw [Bool.not_eq_true] at hex
    rw [if_neg (by rw [hex]; exact Bool.false_ne_true)]
    refine ⟨sanitizeName f, ?_, ?_⟩
    · unfold pathJoin
      rw [if_neg hne.1, if_neg hne.2.1, if_neg hne.2.2]
    · simp only [simpleSegment, Bool.and_eq_true, decide_eq_true_eq, ne_eq,
        Bool.not_eq_true']
      refine ⟨⟨⟨hne.1, hne.2.1⟩, hne.2.2⟩, ?_⟩
      rw [List.any_eq_false]
      intro d hd
      simp only [Bool.or_eq_true, decide_eq_true_eq]
      exact hnosep d hd

theorem saveAttachmentsGo_shape (dir : String) :
    ∀ (atts : List RetainedAttachment) (fs : Fs),
      fs.existsPath dir = true → fs.existsPath (dirname dir) = true →
      ∀ s ∈ (saveAttachmentsGo dir fs atts).1,
        ∃ n, s.filepath = dir ++ "/" ++ n ∧ simpleSegment n = true
  | [], _ => by
    intro _ _ s hs
    cases hs
  | a :: rest, fs => by
    intro hdir hpar s hs
    rw [saveAttachmentsGo_cons] at hs
    rcases List.mem_cons.mp hs with hs | hs
    · obtain ⟨n, hn, hsimple⟩ := resolveCollision_shape fs dir a.filename hdir hpar
      refine ⟨n, ?_, hsimple⟩
      rw [hs]
      exact hn
    · exact saveAttachmentsGo_shape dir rest _
        (existsPath_write_mono _ _ hdir) (existsPath_write_mono _ _ hpar) s hs

/-- C10: every path `saveAttachments` writes is `outputDir/<name>` for a
    sanitized, separator-free simple name — no attachment filename (including
    `..`, `.` or one with separators or an absolute path) can make the staged
    file land outside the staging directory, given that the staging directory's
    parent exists (in the watcher it is the watched email's own directory). -/
theorem sanitizedStagingContainment (fs : Fs) (atts : List RetainedAttachment)
    (dir : String) (hpar : fs.existsPath (dirname dir) = true) :
    ∀ s ∈ (saveAttachments fs atts dir).1,
      ∃ n, s.filepath = dir ++ "/" ++ n ∧ simpleSegment n = true := by
  apply saveAttachmentsGo_shape
  · unfold ensureDir
    by_cases h : fs.existsPath dir = true
    · rw [if_pos h]
      exact h
    · rw [Bool.not_eq_true] at h
      rw [if_neg (by rw [h]; exact Bool.false_ne_true)]
      simp [Fs.mkdirp, Fs.existsPath, Fs.paths]
  · unfold ensureDir
    by_cases h : fs.existsPath dir = true
    · rw [if_pos h]
      exact hpar
    · rw [Bool.not_eq_true] at h
      rw [if_neg (by rw [h]; exact Bool.false_ne_true)]
      simp [Fs.mkdirp, Fs.existsPath, Fs.paths]

theorem attachmentCollisionSafety_witness :
    ((saveAttachments fsW4 attsW4 dirW4).1.map (fun s => s.filepath)).Nodup
    ∧ (saveAttachments fsW4 attsW4 dirW4).1.length = attsW4.length
    ∧ (saveAttachments fsW4 attsW4 dirW4).2.read
        (((saveAttachments fsW4 attsW4 dirW4).1.get ⟨0, by decide⟩).filepath) = some "AAA"
    ∧ (saveAttachments fsW4 attsW4 dirW4).2.read
        (((saveAttachments fsW4 attsW4 dirW4).1.get ⟨1, by decide⟩).filepath) = some "BBB" := by
  obtain ⟨hlen, hnodup, _, hcont⟩ := attachmentCollisionSafety fsW4 attsW4 dirW4
  exact ⟨hnodup, hlen, hcont 0 (by decide) (by decide), hcont 1 (by decide) (by decide)⟩

theorem sanitizedStagingContainment_witness :
    fsW4.existsPath (dirname dirW4) = true
    ∧ ∃ n, sW10.filepath = dirW4 ++ "/" ++ n ∧ simpleSegment n = true :=
  ⟨by decide,
   sanitizedStagingContainment fsW4 attsW10 dirW4 (by decide) sW10 (by decide)⟩

theorem filenameMetadataPrecedence_witness :
    (envW3.parseFilenameMetadata (basename "/watch/2023-03-15-discovery.txt")).date
        = some "2023-03-15"
    ∧ ("2023-03-15" : String) ≠ ""
    ∧ lowerStr (extname "/watch/2023-03-15-discovery.txt") ≠ ".eml"
    ∧ (handleAdd envW3 stW3 "/watch/2023-03-15-discovery.txt").records.length
        = stW3.records.length + 1
    ∧ ∃ r, (handleAdd envW3 stW3 "/watch/2023-03-15-discovery.txt").records
          = r :: stW3.records
        ∧ r.callDate = "2023-03-15"
        ∧ (∀ ct, (envW3.parseFilenameMetadata
              (basename "/watch/2023-03-15-discovery.txt")).callType = some ct →
            ct ≠ "" → r.context = ct) :=
  ⟨by decide, by decide, by decide, by decide,
   filenameMetadataPrecedence envW3 stW3 "/watch/2023-03-15-discovery.txt" "2023-03-15"
     (by decide) (by decide) (by decide) (by decide)⟩

end Brain
